import Mathlib

/-!
Verification of the pdf-extract core (src/lib.rs) against its specification.

The development shallowly embeds the font/encoding subsystem and the
content-stream interpreter of the library.  Rust `f64` values are modelled as
rationals (the claims under study are algebraic, not about rounding),
byte strings as `List Nat`, Rust `String` results as lists of Unicode scalar
values, `HashMap`s as association lists, and fallible code as `Except`.
A Rust panic is modelled by the distinguished error value `Err.panicked`.
-/

set_option maxRecDepth 100000

namespace PdfExtract

/-- Affine transform in the euclid `Transform2D` representation used by the
source: the six entries m11 m12 m21 m22 m31 m32 of the matrix
[m11 m12 0; m21 m22 0; m31 m32 1] acting on row vectors. -/
structure TM where
  m11 : ℚ
  m12 : ℚ
  m21 : ℚ
  m22 : ℚ
  m31 : ℚ
  m32 : ℚ
deriving DecidableEq, Repr

/-- Matrix composition `a.then b` exactly as euclid computes it: apply `a`
first, then `b` (row-vector convention, so the product a * b). -/
def TM.then (a b : TM) : TM :=
  ⟨a.m11 * b.m11 + a.m12 * b.m21,
   a.m11 * b.m12 + a.m12 * b.m22,
   a.m21 * b.m11 + a.m22 * b.m21,
   a.m21 * b.m12 + a.m22 * b.m22,
   a.m31 * b.m11 + a.m32 * b.m21 + b.m31,
   a.m31 * b.m12 + a.m32 * b.m22 + b.m32⟩

/-- The identity transform (`Transform2D::identity`). -/
def TM.identity : TM := ⟨1, 0, 0, 1, 0, 0⟩

/-- Pure translation (`Transform2D::translation(x, y)`). -/
def TM.translation (x y : ℚ) : TM := ⟨1, 0, 0, 1, x, y⟩

/-- The 256-entry `PDF_DOC_ENCODING` table, transcribed from the source. -/
def PDF_DOC_ENCODING : List Nat := [
  0x0000, 0x0001, 0x0002, 0x0003, 0x0004, 0x0005, 0x0006, 0x0007, 0x0008,
  0x0009, 0x000a, 0x000b, 0x000c, 0x000d, 0x000e, 0x000f, 0x0010, 0x0011,
  0x0012, 0x0013, 0x0014, 0x0015, 0x0016, 0x0017, 0x02d8, 0x02c7, 0x02c6,
  0x02d9, 0x02dd, 0x02db, 0x02da, 0x02dc, 0x0020, 0x0021, 0x0022, 0x0023,
  0x0024, 0x0025, 0x0026, 0x0027, 0x0028, 0x0029, 0x002a, 0x002b, 0x002c,
  0x002d, 0x002e, 0x002f, 0x0030, 0x0031, 0x0032, 0x0033, 0x0034, 0x0035,
  0x0036, 0x0037, 0x0038, 0x0039, 0x003a, 0x003b, 0x003c, 0x003d, 0x003e,
  0x003f, 0x0040, 0x0041, 0x0042, 0x0043, 0x0044, 0x0045, 0x0046, 0x0047,
  0x0048, 0x0049, 0x004a, 0x004b, 0x004c, 0x004d, 0x004e, 0x004f, 0x0050,
  0x0051, 0x0052, 0x0053, 0x0054, 0x0055, 0x0056, 0x0057, 0x0058, 0x0059,
  0x005a, 0x005b, 0x005c, 0x005d, 0x005e, 0x005f, 0x0060, 0x0061, 0x0062,
  0x0063, 0x0064, 0x0065, 0x0066, 0x0067, 0x0068, 0x0069, 0x006a, 0x006b,
  0x006c, 0x006d, 0x006e, 0x006f, 0x0070, 0x0071, 0x0072, 0x0073, 0x0074,
  0x0075, 0x0076, 0x0077, 0x0078, 0x0079, 0x007a, 0x007b, 0x007c, 0x007d,
  0x007e, 0x0000, 0x2022, 0x2020, 0x2021, 0x2026, 0x2014, 0x2013, 0x0192,
  0x2044, 0x2039, 0x203a, 0x2212, 0x2030, 0x201e, 0x201c, 0x201d, 0x2018,
  0x2019, 0x201a, 0x2122, 0xfb01, 0xfb02, 0x0141, 0x0152, 0x0160, 0x0178,
  0x017d, 0x0131, 0x0142, 0x0153, 0x0161, 0x017e, 0x0000, 0x20ac, 0x00a1,
  0x00a2, 0x00a3, 0x00a4, 0x00a5, 0x00a6, 0x00a7, 0x00a8, 0x00a9, 0x00aa,
  0x00ab, 0x00ac, 0x0000, 0x00ae, 0x00af, 0x00b0, 0x00b1, 0x00b2, 0x00b3,
  0x00b4, 0x00b5, 0x00b6, 0x00b7, 0x00b8, 0x00b9, 0x00ba, 0x00bb, 0x00bc,
  0x00bd, 0x00be, 0x00bf, 0x00c0, 0x00c1, 0x00c2, 0x00c3, 0x00c4, 0x00c5,
  0x00c6, 0x00c7, 0x00c8, 0x00c9, 0x00ca, 0x00cb, 0x00cc, 0x00cd, 0x00ce,
  0x00cf, 0x00d0, 0x00d1, 0x00d2, 0x00d3, 0x00d4, 0x00d5, 0x00d6, 0x00d7,
  0x00d8, 0x00d9, 0x00da, 0x00db, 0x00dc, 0x00dd, 0x00de, 0x00df, 0x00e0,
  0x00e1, 0x00e2, 0x00e3, 0x00e4, 0x00e5, 0x00e6, 0x00e7, 0x00e8, 0x00e9,
  0x00ea, 0x00eb, 0x00ec, 0x00ed, 0x00ee, 0x00ef, 0x00f0, 0x00f1, 0x00f2,
  0x00f3, 0x00f4, 0x00f5, 0x00f6, 0x00f7, 0x00f8, 0x00f9, 0x00fa, 0x00fb,
  0x00fc, 0x00fd, 0x00fe, 0x00ff]

/-- Strict UTF-16 decoding of a list of 16-bit code units into Unicode scalar
values, as `encoding_rs`'s `decode_without_bom_handling_and_without_replacement`
behaves on UTF-16BE input: a lone or misplaced surrogate makes the whole
decode fail (`none`). -/
def utf16_decode : List Nat → Option (List Nat)
  | [] => some []
  | u :: rest =>
    if u < 0xD800 ∨ 0xE000 ≤ u then
      (utf16_decode rest).map (fun t => u :: t)
    else if u < 0xDC00 then
      match rest with
      | [] => none
      | l :: rest2 =>
        if 0xDC00 ≤ l ∧ l < 0xE000 then
          (utf16_decode rest2).map
            (fun t => (0x10000 + (u - 0xD800) * 0x400 + (l - 0xDC00)) :: t)
        else none
    else none

/-- Pair up a byte list big-endian into 16-bit code units; an odd trailing
byte is malformed input and fails the decode. -/
def to_u16s : List Nat → Option (List Nat)
  | [] => some []
  | [_] => none
  | a :: b :: rest => (to_u16s rest).map (fun t => (a * 256 + b) :: t)

/-- Decode a byte list as UTF-16BE (no BOM handling, no replacement). -/
def utf16be_bytes_decode (bs : List Nat) : Option (List Nat) :=
  match to_u16s bs with
  | none => none
  | some us => utf16_decode us

/-- The two big-endian bytes of a PDFDocEncoding table entry for byte `b`
(the body of the flat_map in `string_utils::pdf_to_utf8`). -/
def doc_enc_pair (b : Nat) : List Nat :=
  let k := PDF_DOC_ENCODING.getD b 0
  [k / 256, k % 256]

/-- Embedding of `string_utils::pdf_to_utf8`: a byte string starting with the
UTF-16BE BOM 0xFE 0xFF is decoded as UTF-16BE of the remainder, otherwise each
byte goes through the PDFDocEncoding table.  `none` models the `PdfError`
return. -/
def pdf_to_utf8 (s : List Nat) : Option (List Nat) :=
  match s with
  | 0xFE :: 0xFF :: rest => utf16be_bytes_decode rest
  | _ => utf16be_bytes_decode (s.flatMap doc_enc_pair)

/-- The two big-endian bytes of an arbitrary encoding table entry for byte `b`
(the body of the flat_map in `string_utils::to_utf8`; out-of-range indexes
give 0 exactly as `encoding.get(x).copied().unwrap_or(0)` does). -/
def table_enc_pair (table : List Nat) (b : Nat) : List Nat :=
  let k := table.getD b 0
  [k / 256, k % 256]

/-- Embedding of `string_utils::to_utf8`: decode a byte string through a given
256-entry Unicode table (or as UTF-16BE when it starts with the BOM). -/
def to_utf8 (table : List Nat) (s : List Nat) : Option (List Nat) :=
  match s with
  | 0xFE :: 0xFF :: rest => utf16be_bytes_decode rest
  | _ => utf16be_bytes_decode (s.flatMap (table_enc_pair table))

/-- Error taxonomy of the library (`PdfError`), plus `panicked`, which models a
Rust panic (process abort) as distinct from every `PdfError` value. -/
inductive Err
  | invalidStructure
  | missingField
  | encodingError
  | fontError
  | panicked
deriving DecidableEq, Repr

/-- Modelled from the spec: fragment of the Adobe Glyph List used by
`glyphnames::name_to_unicode` (the `glyphnames` module is not under src/).
Per the spec, `/Ohm` resolves to the character Ω and glyph names the list
does not know (such as `notdef`) resolve to nothing. -/
def AGL : List (String × Nat) :=
  [("Ohm", 0x2126), ("Omega", 0x2126), ("A", 0x41), ("B", 0x42), ("space", 0x20)]

/-- Modelled from the spec: `glyphnames::name_to_unicode` looks a glyph name
up in the Adobe Glyph List. -/
def name_to_unicode (n : String) : Option Nat :=
  (AGL.find? (fun p => p.1 = n)).map (fun p => p.2)

/-- Modelled from the spec: the 256-entry WinAnsiEncoding table already
resolved through the Adobe Glyph List into Unicode values, as
`encoding_to_unicode_table(b"WinAnsiEncoding")` produces it (the `encodings`
module is not under src/).  Codes 0x20–0x7E and 0xA0–0xFF carry their
Latin-1 values, 0x80–0x9F the usual WinAnsi specials, and undefined slots 0. -/
def WIN_ANSI_UNICODE : List Nat :=
  (List.range 256).map (fun b =>
    if 32 ≤ b ∧ b ≤ 126 then b
    else if 160 ≤ b then b
    else match b with
      | 128 => 0x20AC | 130 => 0x201A | 131 => 0x0192 | 132 => 0x201E
      | 133 => 0x2026 | 134 => 0x2020 | 135 => 0x2021 | 136 => 0x02C6
      | 137 => 0x2030 | 138 => 0x0160 | 139 => 0x2039 | 140 => 0x0152
      | 142 => 0x017D | 145 => 0x2018 | 146 => 0x2019 | 147 => 0x201C
      | 148 => 0x201D | 149 => 0x2022 | 150 => 0x2013 | 151 => 0x2014
      | 152 => 0x02DC | 153 => 0x2122 | 154 => 0x0161 | 155 => 0x203A
      | 156 => 0x0153 | 158 => 0x017E | 159 => 0x0178 | _ => 0)

/-- One entry of an `/Encoding` `Differences` array: an integer, a glyph
name, or any other object (which the source rejects). -/
inductive DiffEntry
  | int (i : Int)
  | name (n : String)
  | other
deriving DecidableEq, Repr

/-- Loop of `PdfSimpleFont::apply_encoding_differences`: an integer resets the
current code, a known glyph name is written into the table when the code is in
range, an unknown name is warned and skipped; the code advances after every
name. -/
def apply_differences_go (table : List Nat) (code : Int) :
    List DiffEntry → Except Err (List Nat)
  | [] => .ok table
  | .int i :: rest => apply_differences_go table i rest
  | .name n :: rest =>
    let table2 :=
      match name_to_unicode n with
      | some u =>
        if 0 ≤ code ∧ code.toNat < table.length then table.set code.toNat u
        else table
      | none => table
    apply_differences_go table2 (code + 1) rest
  | .other :: _ => .error .invalidStructure

/-- Embedding of `PdfSimpleFont::apply_encoding_differences`. -/
def apply_encoding_differences (table : List Nat) (diffs : List DiffEntry) :
    Except Err (List Nat) :=
  apply_differences_go table 0 diffs

/-- A codespace range of a CMap byte mapping (`adobe_cmap_parser::CodeRange`). -/
structure CodeRange where
  width : Nat
  start : Nat
  stop : Nat
deriving DecidableEq, Repr

/-- A CID range of a CMap byte mapping (`adobe_cmap_parser::CIDRange`). -/
structure CIDRange where
  src_code_lo : Nat
  src_code_hi : Nat
  dst_CID_lo : Nat
deriving DecidableEq, Repr

/-- A CMap byte mapping (`adobe_cmap_parser::ByteMapping`, wrapped by the
source's `CIDFontEncoding`). -/
structure ByteMapping where
  codespace : List CodeRange
  cid : List CIDRange
deriving DecidableEq, Repr

/-- Association-list lookup standing in for `HashMap::get`. -/
def assocFind {α : Type} (m : List (Nat × α)) (k : Nat) : Option α :=
  (m.find? (fun p => p.1 = k)).map (fun p => p.2)

/-- Embedding of the `PdfSimpleFont` struct.  The Unicode map sends CharCodes
to lists of Unicode scalar values (Rust `String`s). -/
structure PdfSimpleFont where
  base_name : String
  encoding : Option (List Nat)
  unicode_map : Option (List (Nat × List Nat))
  widths : List (Nat × ℚ)
  missing_width : ℚ
deriving DecidableEq, Repr

/-- Embedding of the `PdfType3Font` struct. -/
structure PdfType3Font where
  encoding : Option (List Nat)
  unicode_map : Option (List (Nat × List Nat))
  widths : List (Nat × ℚ)
deriving DecidableEq, Repr

/-- Embedding of the `PdfCIDFont` struct. -/
structure PdfCIDFont where
  encoding : ByteMapping
  to_unicode : Option (List (Nat × List Nat))
  widths : List (Nat × ℚ)
  default_width : ℚ
deriving DecidableEq, Repr

/-- The three font variants behind the `PdfFont` trait object. -/
inductive Font
  | simple (f : PdfSimpleFont)
  | type3 (f : PdfType3Font)
  | cid (f : PdfCIDFont)
deriving DecidableEq, Repr

/-- Inner loop `for cid_range in &self.encoding.cid` of
`PdfCIDFont::next_char`: first CID range containing the code wins. -/
def findCID (ranges : List CIDRange) (code : Nat) : Option Nat :=
  match ranges with
  | [] => none
  | r :: rs =>
    if r.src_code_lo ≤ code ∧ code ≤ r.src_code_hi then
      some (code - r.src_code_lo + r.dst_CID_lo)
    else findCID rs code

/-- One-byte pass of `PdfCIDFont::next_char`: scan the codespace ranges of
width 1 admitting the code; on a CID hit return it, otherwise keep scanning
(and ultimately fall through to the multi-byte pass). -/
def scan1 (cs : List CodeRange) (cidRs : List CIDRange) (code : Nat) :
    Option Nat :=
  match cs with
  | [] => none
  | r :: rs =>
    if r.start ≤ code ∧ code ≤ r.stop ∧ r.width = 1 then
      match findCID cidRs code with
      | some c => some c
      | none => scan1 rs cidRs code
    else scan1 rs cidRs code

/-- Codespace scan of the multi-byte pass at a fixed width `bytes`.  When a
range of that width admits the accumulated code the iterator is advanced by
`bytes - 1` further bytes *before* the CID search, exactly as the source
consumes them; a CID miss continues the scan with the already-advanced
iterator.  `Sum.inl` is the source's early return, `Sum.inr` hands the
(possibly advanced) iterator back to the outer loop. -/
def scanMulti (cs : List CodeRange) (cidRs : List CIDRange)
    (code bytes : Nat) (iter : List Nat) :
    (Nat × Nat × List Nat) ⊕ List Nat :=
  match cs with
  | [] => .inr iter
  | r :: rs =>
    if r.start ≤ code ∧ code ≤ r.stop ∧ r.width = bytes then
      let it2 := iter.drop (bytes - 1)
      match findCID cidRs code with
      | some c => .inl (c, bytes, it2)
      | none => scanMulti rs cidRs code bytes it2
    else scanMulti rs cidRs code bytes iter

/-- The `for bytes in 2..=4` loop of `PdfCIDFont::next_char`; `gas` counts the
remaining iterations (3 when entering with `bytes = 2`).  Each iteration peeks
at `iter[bytes - 2]`, accumulates the code big-endian, and runs the codespace
scan at that width. -/
def cidMultiGo (cs : List CodeRange) (cidRs : List CIDRange) :
    Nat → Nat → Nat → List Nat → Option (Nat × Nat × List Nat)
  | 0, _, _, _ => none
  | gas + 1, bytes, code, iter =>
    match iter.get? (bytes - 2) with
    | none => none
    | some nb =>
      let code2 := code * 256 + nb
      match scanMulti cs cidRs code2 bytes iter with
      | .inl res => some res
      | .inr it2 => cidMultiGo cs cidRs gas (bytes + 1) code2 it2

/-- Embedding of `PdfCIDFont::next_char` on an explicit byte-list cursor.  The
result carries the CharCode, the reported `bytes_consumed`, and the remaining
cursor; `none` models the source returning `None` (the first byte, and in
failed multi-byte scans further bytes, stay consumed, which is unobservable
because iteration stops). -/
def PdfCIDFont.next_char (f : PdfCIDFont) :
    List Nat → Option (Nat × Nat × List Nat)
  | [] => none
  | b :: rest =>
    match scan1 f.encoding.codespace f.encoding.cid b with
    | some c => some (c, 1, rest)
    | none => cidMultiGo f.encoding.codespace f.encoding.cid 3 2 b rest

/-- Embedding of `PdfSimpleFont::next_char`: one byte, one CharCode. -/
def PdfSimpleFont.next_char (_f : PdfSimpleFont) :
    List Nat → Option (Nat × Nat × List Nat)
  | [] => none
  | b :: rest => some (b, 1, rest)

/-- Embedding of `PdfType3Font::next_char`: one byte, one CharCode. -/
def PdfType3Font.next_char (_f : PdfType3Font) :
    List Nat → Option (Nat × Nat × List Nat)
  | [] => none
  | b :: rest => some (b, 1, rest)

/-- Trait dispatch of `PdfFont::next_char`. -/
def Font.next_char : Font → List Nat → Option (Nat × Nat × List Nat)
  | .simple f => f.next_char
  | .type3 f => f.next_char
  | .cid f => f.next_char

/-- Embedding of `PdfSimpleFont::get_width` (missing entries fall back to
`missing_width`). -/
def PdfSimpleFont.get_width (f : PdfSimpleFont) (id : Nat) : ℚ :=
  (assocFind f.widths id).getD f.missing_width

/-- Embedding of `PdfType3Font::get_width` (missing entries are an
error-logged 0). -/
def PdfType3Font.get_width (f : PdfType3Font) (id : Nat) : ℚ :=
  (assocFind f.widths id).getD 0

/-- Embedding of `PdfCIDFont::get_width` (missing entries fall back to
`default_width`). -/
def PdfCIDFont.get_width (f : PdfCIDFont) (id : Nat) : ℚ :=
  (assocFind f.widths id).getD f.default_width

/-- Trait dispatch of `PdfFont::get_width`. -/
def Font.get_width : Font → Nat → ℚ
  | .simple f => f.get_width
  | .type3 f => f.get_width
  | .cid f => f.get_width

/-- Embedding of `PdfSimpleFont::decode_char`: the Unicode map wins when it
has the CharCode; otherwise the low byte goes through the encoding table
(PDFDocEncoding when none), and a failed conversion yields the empty string. -/
def PdfSimpleFont.decode_char (f : PdfSimpleFont) (ch : Nat) : List Nat :=
  match f.unicode_map.bind (fun m => assocFind m ch) with
  | some s => s
  | none =>
    let table := f.encoding.getD PDF_DOC_ENCODING
    (to_utf8 table [ch % 256]).getD []

/-- Embedding of `PdfType3Font::decode_char` (same shape as SimpleFont). -/
def PdfType3Font.decode_char (f : PdfType3Font) (ch : Nat) : List Nat :=
  match f.unicode_map.bind (fun m => assocFind m ch) with
  | some s => s
  | none =>
    let table := f.encoding.getD PDF_DOC_ENCODING
    (to_utf8 table [ch % 256]).getD []

/-- Embedding of `PdfCIDFont::decode_char`: the ToUnicode map or the empty
string. -/
def PdfCIDFont.decode_char (f : PdfCIDFont) (ch : Nat) : List Nat :=
  ((f.to_unicode.bind (fun m => assocFind m ch))).getD []

/-- Trait dispatch of `PdfFont::decode_char`. -/
def Font.decode_char : Font → Nat → List Nat
  | .simple f => f.decode_char
  | .type3 f => f.decode_char
  | .cid f => f.decode_char

/-- Fuel-driven iteration of `next_char` over a byte string, as
`PdfFontIter` / the `while let` loops in the source drive it: collect the
returned `(CharCode, bytes_consumed)` pairs and the cursor remainder at the
first `None`. -/
def runFontFuel (f : Font) : Nat → List Nat → List (Nat × Nat) × List Nat
  | 0, l => ([], l)
  | fuel + 1, l =>
    match f.next_char l with
    | none => ([], l)
    | some (c, len, rest) =>
      let p := runFontFuel f fuel rest
      ((c, len) :: p.1, p.2)

/-- Repeatedly call `next_char` on a cursor over a byte string (the fuel
`length + 1` is always sufficient because every successful call consumes at
least one byte). -/
def runFont (f : Font) (l : List Nat) : List (Nat × Nat) × List Nat :=
  runFontFuel f (l.length + 1) l

/-- Big-endian value of a byte list (how the source accumulates
`code = (code << 8) | b`). -/
def beNat (l : List Nat) : Nat := l.foldl (fun a b => a * 256 + b) 0

/-- Well-formedness of a byte string under a codespace: it splits into
consecutive codes, each a prefix whose length is the width of some codespace
range admitting its big-endian value. -/
inductive WellFormed (cs : List CodeRange) : List Nat → Prop
  | nil : WellFormed cs []
  | cons (r : CodeRange) (pre post : List Nat) :
      r ∈ cs → pre.length = r.width → 1 ≤ r.width →
      r.start ≤ beNat pre → beNat pre ≤ r.stop →
      WellFormed cs post → WellFormed cs (pre ++ post)

/-- The shapes a dereferenced `/Encoding` entry of a Type0 font dictionary can
take: a name, a CMap stream (its decoded bytes), or some other object. -/
inductive EncObj
  | name (s : String)
  | stream (bytes : List Nat)
  | other
deriving DecidableEq, Repr

/-- The fixed byte mapping the source constructs for `Identity-H` and
`Identity-V`. -/
def identity_byte_mapping : ByteMapping :=
  { codespace := [{ width := 2, start := 0, stop := 0xffff }],
    cid := [{ src_code_lo := 0, src_code_hi := 0xffff, dst_CID_lo := 0 }] }

/-- Embedding of `PdfCIDFont::load_encoding`, parameterized by the external
CMap parser (`adobe_cmap_parser::get_byte_mapping`), which is consulted only
in the stream arm.  `none` models a missing `/Encoding` entry. -/
def PdfCIDFont.load_encoding
    (parser : List Nat → Except Unit ByteMapping) :
    Option EncObj → Except Err ByteMapping
  | none => .error .missingField
  | some (.name s) =>
    if s = "Identity-H" ∨ s = "Identity-V" then .ok identity_byte_mapping
    else .error .invalidStructure
  | some (.stream bytes) =>
    match parser bytes with
    | .ok m => .ok m
    | .error _ => .error .invalidStructure
  | some .other => .error .invalidStructure

/-- Decidable equality for `Except` results, needed to evaluate concrete
runs of the fallible embedded functions. -/
instance {ε α : Type} [DecidableEq ε] [DecidableEq α] :
    DecidableEq (Except ε α) := fun a b =>
  match a, b with
  | .ok x, .ok u =>
    if h : x = u then .isTrue (by rw [h])
    else .isFalse (fun hh => by cases hh; exact h rfl)
  | .ok _, .error _ => .isFalse (fun hh => by cases hh)
  | .error _, .ok _ => .isFalse (fun hh => by cases hh)
  | .error x, .error u =>
    if h : x = u then .isTrue (by rw [h])
    else .isFalse (fun hh => by cases hh; exact h rfl)

/-- A PDF stream as `get_contents` sees it: its raw (possibly compressed)
content bytes and the outcome of `stream.decompressed_content()`. -/
structure PdfStream where
  content : List Nat
  decompressed : Except Unit (List Nat)
deriving DecidableEq, Repr

/-- Embedding of `get_contents`: the decompressed content when decompression
succeeds, silently the raw content bytes otherwise. -/
def get_contents (s : PdfStream) : List Nat :=
  match s.decompressed with
  | .ok c => c
  | .error _ => s.content

/-- The colorspace classification (payload-free here: the calibrated variants
carry data in the source, but none of the modelled operators can build or
inspect it). -/
inductive ColorSpace
  | DeviceGray
  | DeviceRGB
  | DeviceCMYK
  | DeviceN
  | Pattern
deriving DecidableEq, Repr

/-- Embedding of the `TextState` struct.  The source initializes `font_size`
to `f64::NAN`; rationals have no NaN, so the initial state below uses 0 —
no claim observes `font_size` before `Tf` sets it. -/
structure TextState where
  font : Option Font
  font_size : ℚ
  character_spacing : ℚ
  word_spacing : ℚ
  horizontal_scaling : ℚ
  leading : ℚ
  rise : ℚ
  tm : TM
deriving DecidableEq, Repr

/-- Embedding of the `GraphicsState` struct.  The soft mask dictionary is
opaque to the modelled operators and kept as an abstract tag. -/
structure GraphicsState where
  ctm : TM
  ts : TextState
  smask : Option Nat
  fill_colorspace : ColorSpace
  fill_color : List ℚ
  stroke_colorspace : ColorSpace
  stroke_color : List ℚ
  line_width : ℚ
deriving DecidableEq, Repr

/-- Embedding of the `PathOp` enum. -/
inductive PathOp
  | MoveTo (x y : ℚ)
  | LineTo (x y : ℚ)
  | CurveTo (x1 y1 x2 y2 x y : ℚ)
  | Rect (x y w h : ℚ)
  | Close
deriving DecidableEq, Repr

/-- Embedding of the `Path` struct. -/
structure Path where
  ops : List PathOp
deriving DecidableEq, Repr

/-- Embedding of `Path::current_point`: the source matches only on the last
op and panics (`none` here) whenever it is absent, a `Close`, or a `Rect`. -/
def Path.current_point (p : Path) : Option (ℚ × ℚ) :=
  match p.ops.getLast? with
  | some (.MoveTo x y) => some (x, y)
  | some (.LineTo x y) => some (x, y)
  | some (.CurveTo _ _ _ _ x y) => some (x, y)
  | _ => none

/-- The payload of one `output_character` device call. -/
structure CharEv where
  trm : TM
  w0 : ℚ
  spacing : ℚ
  font_size : ℚ
  text : List Nat
deriving DecidableEq, Repr

/-- Output-device events, recorded in emission order. -/
inductive Ev
  | char (e : CharEv)
  | beginWord
  | endWord
  | endLine
  | strokeEv (ctm : TM) (cs : ColorSpace) (color : List ℚ) (ops : List PathOp)
  | fillEv (ctm : TM) (cs : ColorSpace) (color : List ℚ) (ops : List PathOp)
deriving DecidableEq, Repr

/-- One iteration of the `while let` loop in `show_text` for a decoded
`(CharCode, bytes_consumed)` pair: build the text-space and rendering
matrices, the normalized width, the spacing (word spacing only for the
single-byte code 0x20), emit the character event and advance the text
matrix. -/
def show_text_char (font : Font) (gs : GraphicsState) (c len : Nat) :
    GraphicsState × CharEv :=
  let ts := gs.ts
  let tsm : TM := ⟨ts.horizontal_scaling, 0, 0, 1, 0, ts.rise⟩
  let trm := tsm.then (ts.tm.then gs.ctm)
  let w0 := font.get_width c / 1000
  let spacing :=
    ts.character_spacing + (if c = 32 ∧ len = 1 then ts.word_spacing else 0)
  let ev : CharEv :=
    { trm := trm, w0 := w0, spacing := spacing, font_size := ts.font_size,
      text := font.decode_char c }
  let tj : ℚ := 0
  let tx := ts.horizontal_scaling * ((w0 - tj / 1000) * ts.font_size + spacing)
  ({ gs with ts := { ts with tm := ts.tm.then (TM.translation tx 0) } }, ev)

/-- The `while let Some((c, length)) = font.next_char(..)` loop of
`show_text`, driven by fuel (always sufficient at `length + 1`). -/
def show_text_loop (font : Font) :
    Nat → GraphicsState → List Nat → List Ev → GraphicsState × List Ev
  | 0, gs, _, evs => (gs, evs)
  | fuel + 1, gs, l, evs =>
    match font.next_char l with
    | none => (gs, evs)
    | some (c, len, rest) =>
      let p := show_text_char font gs c len
      show_text_loop font fuel p.1 rest (evs ++ [Ev.char p.2])

/-- Embedding of `show_text`: fails with InvalidStructure when no font is
set, otherwise brackets the decoded characters in begin/end word events.
(The source also receives the text-line matrix and flip transform, but
ignores both.) -/
def show_text (gs : GraphicsState) (s : List Nat) (evs : List Ev) :
    Except Err (GraphicsState × List Ev) :=
  match gs.ts.font with
  | none => .error .invalidStructure
  | some font =>
    let p := show_text_loop font (s.length + 1) gs s (evs ++ [Ev.beginWord])
    .ok (p.1, p.2 ++ [Ev.endWord])

/-- The text-matrix advance for a number element of a `TJ` array. -/
def tj_num (gs : GraphicsState) (tj : ℚ) : GraphicsState :=
  let ts := gs.ts
  let w0 : ℚ := 0
  let ty : ℚ := 0
  let tx := ts.horizontal_scaling * ((w0 - tj / 1000) * ts.font_size)
  { gs with ts := { ts with tm := ts.tm.then (TM.translation tx ty) } }

/-- Elements of a `TJ` operand array. -/
inductive TJElem
  | str (s : List Nat)
  | int (i : Int)
  | real (r : ℚ)
  | other
deriving DecidableEq, Repr

/-- Outcome of resolving and constructing one font resource (the behaviour of
`make_font` on the dictionary behind a `/Font` entry). -/
inductive FontRes
  | failed
  | built (f : Font)
deriving DecidableEq, Repr

/-- The parts of the document and resource dictionary the modelled operators
consult: the `/Font` dictionary (absent, or a name-keyed table of font
construction outcomes). -/
structure Env where
  font_res : Option (List (String × FontRes))
deriving DecidableEq, Repr

/-- The interpreter state of `Processor::process_stream`: graphics state, its
stack, the marked-content depth, the text line matrix, the current path, the
per-stream font cache and the emitted device events. -/
structure St where
  gs : GraphicsState
  gs_stack : List GraphicsState
  mc_depth : Nat
  tlm : TM
  path : Path
  font_cache : List (String × Font)
  events : List Ev
deriving DecidableEq, Repr

/-- The content-stream operators modelled, with their operands already
parsed (`cm`, `Tm`, `Td`, `TD` with any other arity fail in the source and
carry exact arity here).  Operators whose arms only log (`G`, `g`, `RG`,
`rg`, `K`, `k`, `i`, `J`, `j`, `M`, `d`, `ri`, `s`, `fstar`, `B`, `Bstar`,
`b`, `W`, `Wstar` and unknown names) are collapsed into `ignored`. -/
inductive Op
  | BT
  | ET
  | cm (a b c d e f : ℚ)
  | SC (ops : List ℚ)
  | SCN (ops : List ℚ)
  | sc (ops : List ℚ)
  | scn (ops : List ℚ)
  | TJ (elems : List TJElem)
  | Tj (s : List Nat)
  | Tc (x : ℚ)
  | Tw (x : ℚ)
  | Tz (x : ℚ)
  | TL (x : ℚ)
  | Tf (name : String) (size : ℚ)
  | Ts (x : ℚ)
  | Tm (a b c d e f : ℚ)
  | Td (tx ty : ℚ)
  | TD (tx ty : ℚ)
  | Tstar
  | q
  | Q
  | m (x y : ℚ)
  | l (x y : ℚ)
  | c (a b cc d e f : ℚ)
  | v (a b cc d : ℚ)
  | y (a b cc d : ℚ)
  | h
  | re (x yy w hh : ℚ)
  | S
  | F
  | f
  | n
  | BMC
  | BDC
  | EMC
  | w (x : ℚ)
  | ignored
deriving DecidableEq, Repr

/-- Fold of the `TJ` arm over the operand array: strings go through
`show_text`, numbers advance the text matrix, anything else is skipped. -/
def tj_fold (st : St) : List TJElem → Except Err St
  | [] => .ok st
  | .str s :: rest =>
    match show_text st.gs s st.events with
    | .error e => .error e
    | .ok (g, evs) => tj_fold { st with gs := g, events := evs } rest
  | .int i :: rest => tj_fold { st with gs := tj_num st.gs (i : ℚ) } rest
  | .real r :: rest => tj_fold { st with gs := tj_num st.gs r } rest
  | .other :: rest => tj_fold st rest

/-- The `Tf` arm: the `/Font` dictionary is fetched with `?` (its absence is
a returned error), but the individual font lookup and `make_font` result are
both `unwrap`ped, so their failure is a panic.  Constructed fonts are cached
per stream. -/
def tf_arm (env : Env) (st : St) (name : String) (size : ℚ) : Except Err St :=
  match env.font_res with
  | none => .error .missingField
  | some tbl =>
    match st.font_cache.find? (fun p => p.1 = name) with
    | some pr =>
      .ok { st with gs := { st.gs with
              ts := { st.gs.ts with font := some pr.2, font_size := size } } }
    | none =>
      match tbl.find? (fun p => p.1 = name) with
      | none => .error .panicked
      | some (_, FontRes.failed) => .error .panicked
      | some (_, FontRes.built f) =>
        .ok { st with
              font_cache := st.font_cache ++ [(name, f)]
              gs := { st.gs with
                ts := { st.gs.ts with font := some f, font_size := size } } }

/-- One step of `Processor::process_stream`'s operator dispatch. -/
def step (env : Env) (st : St) (op : Op) : Except Err St :=
  match op with
  | .BT =>
    .ok { st with
          tlm := TM.identity
          gs := { st.gs with ts := { st.gs.ts with tm := TM.identity } } }
  | .ET =>
    .ok { st with
          tlm := TM.identity
          gs := { st.gs with ts := { st.gs.ts with tm := TM.identity } } }
  | .cm a b c d e f =>
    .ok { st with gs := { st.gs with
          ctm := st.gs.ctm.then ⟨a, b, c, d, e, f⟩ } }
  | .SC ops =>
    .ok { st with gs := { st.gs with stroke_color :=
          match st.gs.stroke_colorspace with
          | .Pattern => []
          | _ => ops } }
  | .SCN ops =>
    .ok { st with gs := { st.gs with stroke_color :=
          match st.gs.stroke_colorspace with
          | .Pattern => []
          | _ => ops } }
  | .sc ops =>
    .ok { st with gs := { st.gs with fill_color :=
          match st.gs.fill_colorspace with
          | .Pattern => []
          | _ => ops } }
  | .scn ops =>
    .ok { st with gs := { st.gs with fill_color :=
          match st.gs.fill_colorspace with
          | .Pattern => []
          | _ => ops } }
  | .TJ elems => tj_fold st elems
  | .Tj s =>
    match show_text st.gs s st.events with
    | .error e => .error e
    | .ok (g, evs) => .ok { st with gs := g, events := evs }
  | .Tc x =>
    .ok { st with gs := { st.gs with
          ts := { st.gs.ts with character_spacing := x } } }
  | .Tw x =>
    .ok { st with gs := { st.gs with
          ts := { st.gs.ts with word_spacing := x } } }
  | .Tz x =>
    .ok { st with gs := { st.gs with
          ts := { st.gs.ts with horizontal_scaling := x / 100 } } }
  | .TL x =>
    .ok { st with gs := { st.gs with
          ts := { st.gs.ts with leading := x } } }
  | .Tf name size => tf_arm env st name size
  | .Ts x =>
    .ok { st with gs := { st.gs with
          ts := { st.gs.ts with rise := x } } }
  | .Tm a b c d e f =>
    .ok { st with
          tlm := ⟨a, b, c, d, e, f⟩
          gs := { st.gs with ts := { st.gs.ts with tm := ⟨a, b, c, d, e, f⟩ } }
          events := st.events ++ [Ev.endLine] }
  | .Td tx ty =>
    let tlm2 := st.tlm.then (TM.translation tx ty)
    .ok { st with
          tlm := tlm2
          gs := { st.gs with ts := { st.gs.ts with tm := tlm2 } }
          events := st.events ++ [Ev.endLine] }
  | .TD tx ty =>
    let tlm2 := st.tlm.then (TM.translation tx ty)
    .ok { st with
          tlm := tlm2
          gs := { st.gs with ts := { st.gs.ts with leading := -ty, tm := tlm2 } }
          events := st.events ++ [Ev.endLine] }
  | .Tstar =>
    let tlm2 := st.tlm.then (TM.translation 0 (-st.gs.ts.leading))
    .ok { st with
          tlm := tlm2
          gs := { st.gs with ts := { st.gs.ts with tm := tlm2 } }
          events := st.events ++ [Ev.endLine] }
  | .q => .ok { st with gs_stack := st.gs :: st.gs_stack }
  | .Q =>
    match st.gs_stack with
    | [] => .ok st
    | s :: rest => .ok { st with gs := s, gs_stack := rest }
  | .m x yv => .ok { st with path := ⟨st.path.ops ++ [PathOp.MoveTo x yv]⟩ }
  | .l x yv => .ok { st with path := ⟨st.path.ops ++ [PathOp.LineTo x yv]⟩ }
  | .c a b cc d e f =>
    .ok { st with path := ⟨st.path.ops ++ [PathOp.CurveTo a b cc d e f]⟩ }
  | .v a b cc d =>
    match st.path.current_point with
    | none => .error .panicked
    | some (x, yv) =>
      .ok { st with path := ⟨st.path.ops ++ [PathOp.CurveTo x yv a b cc d]⟩ }
  | .y a b cc d =>
    .ok { st with path := ⟨st.path.ops ++ [PathOp.CurveTo a b cc d cc d]⟩ }
  | .h => .ok { st with path := ⟨st.path.ops ++ [PathOp.Close]⟩ }
  | .re x yv wv hv =>
    .ok { st with path := ⟨st.path.ops ++ [PathOp.Rect x yv wv hv]⟩ }
  | .S =>
    .ok { st with
          path := ⟨[]⟩
          events := st.events ++
            [Ev.strokeEv st.gs.ctm st.gs.stroke_colorspace st.gs.stroke_color
              st.path.ops] }
  | .F =>
    .ok { st with
          path := ⟨[]⟩
          events := st.events ++
            [Ev.fillEv st.gs.ctm st.gs.fill_colorspace st.gs.fill_color
              st.path.ops] }
  | .f =>
    .ok { st with
          path := ⟨[]⟩
          events := st.events ++
            [Ev.fillEv st.gs.ctm st.gs.fill_colorspace st.gs.fill_color
              st.path.ops] }
  | .n => .ok { st with path := ⟨[]⟩ }
  | .BMC => .ok { st with mc_depth := st.mc_depth + 1 }
  | .BDC => .ok { st with mc_depth := st.mc_depth + 1 }
  | .EMC => .ok { st with mc_depth := st.mc_depth - 1 }
  | .w x => .ok { st with gs := { st.gs with line_width := x } }
  | .ignored => .ok st

/-- Run a list of operators from a state, stopping at the first error
(`process_stream`'s `for operation in &content.operations`). -/
def runOps (env : Env) (st : St) : List Op → Except Err St
  | [] => .ok st
  | op :: rest =>
    match step env st op with
    | .error e => .error e
    | .ok s2 => runOps env s2 rest

/-- The initial interpreter state of `process_stream` (with `font_size` 0
standing in for the source's NaN, see `TextState`). -/
def init_st : St :=
  { gs :=
    { ctm := TM.identity,
      ts :=
      { font := none, font_size := 0, character_spacing := 0,
        word_spacing := 0, horizontal_scaling := 1, leading := 0, rise := 0,
        tm := TM.identity },
      smask := none,
      fill_colorspace := .DeviceGray, fill_color := [],
      stroke_colorspace := .DeviceGray, stroke_color := [],
      line_width := 1 },
    gs_stack := [], mc_depth := 0, tlm := TM.identity, path := ⟨[]⟩,
    font_cache := [], events := [] }

/-- An environment with no `/Font` resource dictionary. -/
def env0 : Env := { font_res := none }

/-- An environment whose `/Font` dictionary is present but empty (so every
font name lookup fails). -/
def env_empty_fonts : Env := { font_res := some [] }

/-- A concrete simple font used to exercise `show_text`: width 250 for the
space, 500 for `A`, no encoding or Unicode map. -/
def c1_font : PdfSimpleFont :=
  { base_name := "F1", encoding := none, unicode_map := none,
    widths := [(32, 250), (65, 500)], missing_width := 0 }

/-- A concrete graphics state with `c1_font` selected at size 10, character
spacing 2 and word spacing 3. -/
def c1_gs : GraphicsState :=
  { init_st.gs with ts :=
    { init_st.gs.ts with
      font := some (Font.simple c1_font)
      font_size := 10
      character_spacing := 2
      word_spacing := 3 } }

/-- A concrete CID font whose codespace admits every single byte but whose
CID range list is empty. -/
def c2_font : PdfCIDFont :=
  { encoding :=
    { codespace := [{ width := 1, start := 0, stop := 255 }], cid := [] },
    to_unicode := none, widths := [], default_width := 1000 }

/-- A concrete Type3 font (its `next_char` ignores the fields). -/
def c2_t3_font : PdfType3Font :=
  { encoding := none, unicode_map := none, widths := [] }

/-- The Differences array of spec scenario 5: `[65 /Ohm 66 /notdef]`. -/
def c3_diffs : List DiffEntry :=
  [DiffEntry.int 65, DiffEntry.name "Ohm", DiffEntry.name "notdef"]

/-- The encoding table obtained from base WinAnsi plus `c3_diffs` (the error
case cannot occur on these entries, so the fallback is irrelevant). -/
def c3_table : List Nat :=
  match apply_encoding_differences WIN_ANSI_UNICODE c3_diffs with
  | .ok t => t
  | .error _ => []

/-- The simple font of spec scenario 5: BaseEncoding WinAnsi with
Differences `[65 /Ohm 66 /notdef]`, no ToUnicode map. -/
def c3_font : PdfSimpleFont :=
  { base_name := "Scenario5", encoding := some c3_table,
    unicode_map := none, widths := [], missing_width := 0 }

/-- An interpreter state like the initial one but with a pending path whose
last op is a `Close` (preceded by a `MoveTo`). -/
def st_move_close : St :=
  { init_st with path := ⟨[PathOp.MoveTo 1 2, PathOp.Close]⟩ }

/-- A CID font equipped with the canonical 2-byte identity byte mapping. -/
def id_cid_font : PdfCIDFont :=
  { encoding := identity_byte_mapping, to_unicode := none, widths := [],
    default_width := 1000 }

/-- Operator sequences in which every `Q` closes an earlier `q`: empty, an
operator other than `q`/`Q` followed by a balanced tail, or a balanced block
wrapped in `q`/`Q` followed by a balanced tail. -/
inductive Balanced : List Op → Prop
  | nil : Balanced []
  | cons (op : Op) (L : List Op) : op ≠ Op.q → op ≠ Op.Q → Balanced L →
      Balanced (op :: L)
  | wrap (L1 L2 : List Op) : Balanced L1 → Balanced L2 →
      Balanced (Op.q :: (L1 ++ Op.Q :: L2))

/-- C10: for every stream object, `get_contents` never fails: it returns the
decompressed content when decompression succeeds and otherwise silently falls
back to the stream's raw undecoded bytes. -/
theorem c10_get_contents_total_fallback :
    ∀ s : PdfStream,
      (∀ cbytes, s.decompressed = .ok cbytes → get_contents s = cbytes) ∧
      (∀ e, s.decompressed = .error e → get_contents s = s.content) := by
  intro s
  constructor
  · intro cbytes h
    simp [get_contents, h]
  · intro e h
    simp [get_contents, h]

/-- Closed instance of `c10_get_contents_total_fallback` at concrete streams
with failing and succeeding decompression. -/
theorem c10_witness :
    get_contents { content := [1, 2], decompressed := .error () } = [1, 2] ∧
    get_contents { content := [1, 2], decompressed := .ok [3] } = [3] := by
  exact ⟨(c10_get_contents_total_fallback _).2 () rfl,
         (c10_get_contents_total_fallback _).1 [3] rfl⟩

/-- C6: for a CID font whose `/Encoding` is the name Identity-H or
Identity-V, the constructed byte mapping is exactly the canonical 2-byte
identity CMap — one codespace range (width 2, 0..0xFFFF) and one CID range
(0..0xFFFF mapping to CID 0) — and the result is the same for every CMap
parser, which is therefore never consulted for these names. -/
theorem c6_identity_cmap :
    ∀ (parser : List Nat → Except Unit ByteMapping) (s : String),
      s = "Identity-H" ∨ s = "Identity-V" →
      PdfCIDFont.load_encoding parser (some (EncObj.name s)) =
        .ok identity_byte_mapping ∧
      identity_byte_mapping.codespace =
        [{ width := 2, start := 0, stop := 0xffff }] ∧
      identity_byte_mapping.cid =
        [{ src_code_lo := 0, src_code_hi := 0xffff, dst_CID_lo := 0 }] := by
  intro parser s h
  refine ⟨?_, rfl, rfl⟩
  rcases h with h | h <;> subst h <;> rfl

/-- Closed instance of `c6_identity_cmap` with a parser that always fails,
showing the name arm does not consult it. -/
theorem c6_witness :
    PdfCIDFont.load_encoding (fun _ => .error ())
      (some (EncObj.name "Identity-H")) = .ok identity_byte_mapping := by
  exact (c6_identity_cmap (fun _ => .error ()) "Identity-H" (Or.inl rfl)).1

/-- C4 (code bug): a `Tf` whose font name is absent from the `/Font`
dictionary, or whose font construction fails, makes the interpreter panic
(`Err.panicked`, the model of a Rust `unwrap` abort) instead of returning a
`PdfError` to the caller as the propagation policy requires. -/
theorem c4_tf_failure_panics :
    runOps env_empty_fonts init_st [Op.Tf "F1" 12] = .error Err.panicked ∧
    runOps { font_res := some [("F1", FontRes.failed)] } init_st
      [Op.Tf "F1" 12] = .error Err.panicked ∧
    Err.panicked ≠ Err.invalidStructure ∧
    Err.panicked ≠ Err.missingField ∧
    Err.panicked ≠ Err.fontError := by
  refine ⟨rfl, rfl, by decide, by decide, by decide⟩

/-- C5 (code bug): `current_point` looks only at the last path op, so it
aborts (`none`, modelling the source's panic) on a path whose last op is a
`Close` or a `Rect` even though a non-Close op is present, and the `v`
operator on an empty path propagates the panic instead of reporting
InvalidStructure. -/
theorem c5_current_point_panics :
    Path.current_point ⟨[PathOp.MoveTo 1 2, PathOp.Close]⟩ = none ∧
    Path.current_point ⟨[PathOp.Rect 0 0 5 5]⟩ = none ∧
    step env0 init_st (Op.v 1 2 3 4) = .error Err.panicked ∧
    step env0 st_move_close (Op.v 1 2 3 4) = .error Err.panicked := by
  exact ⟨rfl, rfl, rfl, rfl⟩

/-- C7: every byte whose PDFDocEncoding entry is non-zero decodes under
`pdf_to_utf8` to exactly the one-character string with that scalar value,
and a byte string starting with 0xFE 0xFF is instead decoded as UTF-16BE of
the remainder. -/
theorem c7_pdfdoc_roundtrip :
    (∀ b : Nat, b < 256 → PDF_DOC_ENCODING.getD b 0 ≠ 0 →
      pdf_to_utf8 [b] = some [PDF_DOC_ENCODING.getD b 0]) ∧
    (∀ rest, pdf_to_utf8 (0xFE :: 0xFF :: rest) = utf16be_bytes_decode rest) := by
  constructor
  · decide
  · intro rest
    rfl

/-- Closed instance of `c7_pdfdoc_roundtrip` at byte 65 and a concrete
BOM-prefixed string. -/
theorem c7_witness :
    pdf_to_utf8 [65] = some [PDF_DOC_ENCODING.getD 65 0] ∧
    pdf_to_utf8 (0xFE :: 0xFF :: [0x21, 0x26]) =
      utf16be_bytes_decode [0x21, 0x26] := by
  exact ⟨c7_pdfdoc_roundtrip.1 65 (by decide) (by decide),
         c7_pdfdoc_roundtrip.2 [0x21, 0x26]⟩

/-- C9: after any of the painting operators S, f, F or n the current path's
op list is empty. -/
theorem c9_paint_clears_path :
    ∀ (env : Env) (st : St) (op : Op) (s2 : St),
      (op = Op.S ∨ op = Op.F ∨ op = Op.f ∨ op = Op.n) →
      step env st op = .ok s2 → s2.path.ops = [] := by
  intro env st op s2 hop h
  rcases hop with rfl | rfl | rfl | rfl <;>
    (simp only [step] at h; injection h with h; subst h; rfl)

/-- Closed instance of `c9_paint_clears_path`: stroking a pending path from
a concrete state leaves the path empty. -/
theorem c9_witness :
    ∃ s2, step env0 st_move_close Op.S = .ok s2 ∧ s2.path.ops = [] := by
  refine ⟨_, rfl, c9_paint_clears_path env0 st_move_close Op.S _
    (Or.inl rfl) rfl⟩

/-- C3 (counterexample): with BaseEncoding WinAnsi and Differences
`[65 /Ohm 66 /notdef]`, `decode_char 66` is the one-character string "B"
(U+0042) — not the empty string the claim states — because the unknown glyph
name notdef is skipped and slot 66 keeps its WinAnsi value. -/
theorem c3_notdef_decode_cex :
    PdfSimpleFont.decode_char c3_font 66 = [0x42] ∧
    ([0x42] : List Nat) ≠ [] := by
  exact ⟨by decide, by decide⟩

/-- C3 (amended): `decode_char 65` is "Ω" (U+2126) as claimed, and
`decode_char 66` is "B" (U+0042): the unknown name notdef is warned and
skipped, leaving the base WinAnsi entry in slot 66. -/
theorem c3_differences_decode_amended :
    PdfSimpleFont.decode_char c3_font 65 = [0x2126] ∧
    PdfSimpleFont.decode_char c3_font 66 = [0x42] := by
  exact ⟨by decide, by decide⟩

/-- C1: in `show_text`, every decoded CharCode with its consumed byte length
is processed by `show_text_char`; the spacing passed to `output_character`
is `character_spacing + word_spacing` exactly when the code is 0x20 consumed
as a single byte (`character_spacing` alone otherwise), and immediately after
the output the text matrix is the pre-call matrix composed with the
translation by `horizontal_scaling * (width * font_size + spacing)`, where
`width` is the font's width for the code divided by 1000. -/
theorem c1_show_text_spacing_advance :
    ∀ (gs : GraphicsState) (font : Font) (l : List Nat) (cc len : Nat)
      (rest : List Nat) (fuel : Nat) (evs : List Ev),
      font.next_char l = some (cc, len, rest) →
      (show_text_loop font (fuel + 1) gs l evs =
        show_text_loop font fuel (show_text_char font gs cc len).1 rest
          (evs ++ [Ev.char (show_text_char font gs cc len).2])) ∧
      (cc = 32 ∧ len = 1 →
        (show_text_char font gs cc len).2.spacing =
          gs.ts.character_spacing + gs.ts.word_spacing) ∧
      (¬(cc = 32 ∧ len = 1) →
        (show_text_char font gs cc len).2.spacing =
          gs.ts.character_spacing) ∧
      (show_text_char font gs cc len).1.ts.tm =
        gs.ts.tm.then (TM.translation
          (gs.ts.horizontal_scaling *
            (font.get_width cc / 1000 * gs.ts.font_size +
              (show_text_char font gs cc len).2.spacing)) 0) := by
  intro gs font l cc len rest fuel evs h
  refine ⟨?_, ?_, ?_, ?_⟩
  · simp [show_text_loop, h]
  · intro hc
    simp only [show_text_char]
    rw [if_pos hc]
  · intro hc
    simp only [show_text_char]
    rw [if_neg hc]
    exact add_zero _
  · simp only [show_text_char]
    congr 2
    ring

/-- Closed instance of `c1_show_text_spacing_advance`: decoding the single
space byte from `c1_gs`. -/
theorem c1_witness :
    ((show_text_char (Font.simple c1_font) c1_gs 32 1).2.spacing =
      c1_gs.ts.character_spacing + c1_gs.ts.word_spacing) ∧
    (show_text_char (Font.simple c1_font) c1_gs 32 1).1.ts.tm =
      c1_gs.ts.tm.then (TM.translation
        (c1_gs.ts.horizontal_scaling *
          ((Font.simple c1_font).get_width 32 / 1000 * c1_gs.ts.font_size +
            (show_text_char (Font.simple c1_font) c1_gs 32 1).2.spacing))
        0) := by
  have h := c1_show_text_spacing_advance c1_gs (Font.simple c1_font) [32] 32 1
    [] 0 [] rfl
  exact ⟨h.2.1 ⟨rfl, rfl⟩, h.2.2.2⟩

/-- Auxiliary: the sum of a constant-one map is the list length. -/
theorem sum_map_one {α : Type} (l : List α) :
    (l.map (fun _ => (1 : Nat))).sum = l.length := by
  induction l with
  | nil => rfl
  | cons a t ih => simp [ih, Nat.add_comm]

/-- Auxiliary: on a simple font, iteration with sufficient fuel turns every
byte into a 1-byte CharCode and consumes the whole string. -/
theorem runFontFuel_simple (f : PdfSimpleFont) :
    ∀ (fuel : Nat) (l : List Nat), l.length < fuel →
      runFontFuel (Font.simple f) fuel l = (l.map (fun b => (b, 1)), []) := by
  intro fuel
  induction fuel with
  | zero => intro l hl; omega
  | succ n ih =>
    intro l hl
    cases l with
    | nil => rfl
    | cons b t =>
      simp only [runFontFuel, Font.next_char, PdfSimpleFont.next_char]
      rw [ih t (by simp at hl; omega)]
      simp

/-- Auxiliary: on a Type3 font, iteration with sufficient fuel likewise
turns every byte into a 1-byte CharCode and consumes the whole string. -/
theorem runFontFuel_type3 (f : PdfType3Font) :
    ∀ (fuel : Nat) (l : List Nat), l.length < fuel →
      runFontFuel (Font.type3 f) fuel l = (l.map (fun b => (b, 1)), []) := by
  intro fuel
  induction fuel with
  | zero => intro l hl; omega
  | succ n ih =>
    intro l hl
    cases l with
    | nil => rfl
    | cons b t =>
      simp only [runFontFuel, Font.next_char, PdfType3Font.next_char]
      rw [ih t (by simp at hl; omega)]
      simp

/-- Auxiliary: a successful one-byte scan returns exactly the CID that
`findCID` assigns to the scanned code, and certifies a width-1 codespace
range admitting that code. -/
theorem scan1_some (cs : List CodeRange) (cidRs : List CIDRange) :
    ∀ (code c2 : Nat), scan1 cs cidRs code = some c2 →
      findCID cidRs code = some c2 ∧
        ∃ r ∈ cs, r.width = 1 ∧ r.start ≤ code ∧ code ≤ r.stop := by
  induction cs with
  | nil => intro code c2 h; exact absurd h (by simp [scan1])
  | cons r rs ih =>
    intro code c2 h
    simp only [scan1] at h
    by_cases hc : r.start ≤ code ∧ code ≤ r.stop ∧ r.width = 1
    · rw [if_pos hc] at h
      cases hf : findCID cidRs code with
      | some c3 =>
        simp only [hf, Option.some.injEq] at h
        subst h
        exact ⟨rfl, r, List.mem_cons_self r rs, hc.2.2, hc.1, hc.2.1⟩
      | none =>
        simp only [hf] at h
        obtain ⟨hfc, r2, hr2, hw⟩ := ih code c2 h
        rw [hf] at hfc
        exact Option.noConfusion hfc
    · rw [if_neg hc] at h
      obtain ⟨hfc, r2, hr2, hw⟩ := ih code c2 h
      exact ⟨hfc, r2, List.mem_cons_of_mem r hr2, hw⟩

/-- Auxiliary: a codespace scan that returns early reports the scanned width
as consumed, returns exactly the CID that `findCID` assigns to the scanned
code, and certifies a range of that width admitting that code. -/
theorem scanMulti_inl (cidRs : List CIDRange) (code bytes : Nat) :
    ∀ (cs : List CodeRange) (iter it2 : List Nat) (cc len : Nat),
      scanMulti cs cidRs code bytes iter = .inl (cc, len, it2) →
      len = bytes ∧ findCID cidRs code = some cc ∧
        ∃ r ∈ cs, r.width = bytes ∧ r.start ≤ code ∧ code ≤ r.stop := by
  intro cs
  induction cs with
  | nil => intro iter it2 cc len h; exact absurd h (by simp [scanMulti])
  | cons r rs ih =>
    intro iter it2 cc len h
    simp only [scanMulti] at h
    by_cases hc : r.start ≤ code ∧ code ≤ r.stop ∧ r.width = bytes
    · rw [if_pos hc] at h
      cases hf : findCID cidRs code with
      | some c3 =>
        simp only [hf, Sum.inl.injEq, Prod.mk.injEq] at h
        obtain ⟨h1, h2, h3⟩ := h
        subst h1
        exact ⟨h2.symm, rfl, r, List.mem_cons_self r rs, hc.2.2, hc.1, hc.2.1⟩
      | none =>
        simp only [hf] at h
        obtain ⟨h1, hfc, r2, hr2, hw⟩ := ih _ _ _ _ h
        rw [hf] at hfc
        exact Option.noConfusion hfc
    · rw [if_neg hc] at h
      obtain ⟨h1, hfc, r2, hr2, hw⟩ := ih _ _ _ _ h
      exact ⟨h1, hfc, r2, List.mem_cons_of_mem r hr2, hw⟩

/-- Auxiliary: a successful multi-byte pass consumes between 2 and
`bytes + gas - 1` bytes, and there is an accumulated code whose `findCID`
lookup yields exactly the returned CharCode and which is admitted by a
codespace range of exactly the consumed width. -/
theorem cidMultiGo_some (cs : List CodeRange) (cidRs : List CIDRange) :
    ∀ (gas bytes code : Nat) (iter it : List Nat) (cc len : Nat),
      2 ≤ bytes →
      cidMultiGo cs cidRs gas bytes code iter = some (cc, len, it) →
      2 ≤ len ∧ len ≤ bytes + gas - 1 ∧
        ∃ cd, findCID cidRs cd = some cc ∧
          ∃ r ∈ cs, r.width = len ∧ r.start ≤ cd ∧ cd ≤ r.stop := by
  intro gas
  induction gas with
  | zero =>
    intro bytes code iter it cc len hb h
    exact absurd h (by simp [cidMultiGo])
  | succ n ih =>
    intro bytes code iter it cc len hb h
    simp only [cidMultiGo] at h
    cases hg : iter.get? (bytes - 2) with
    | none => simp only [hg] at h; exact Option.noConfusion h
    | some nb =>
      simp only [hg] at h
      cases hs : scanMulti cs cidRs (code * 256 + nb) bytes iter with
      | inl res =>
        simp only [hs] at h
        obtain ⟨rc, rl, ri⟩ := res
        simp only [Option.some.injEq, Prod.mk.injEq] at h
        obtain ⟨hlen, hfc, r, hr, hw, hlo, hhi⟩ :=
          scanMulti_inl cidRs (code * 256 + nb) bytes cs iter ri rc rl hs
        obtain ⟨hcc, hll, hit⟩ := h
        subst hcc
        refine ⟨by omega, by omega, code * 256 + nb, hfc, r, hr, by omega,
          hlo, hhi⟩
      | inr it2 =>
        simp only [hs] at h
        obtain ⟨h2, h3, hex⟩ :=
          ih (bytes + 1) (code * 256 + nb) it2 it cc len (by omega) h
        exact ⟨h2, by omega, hex⟩

/-- Auxiliary: a successful CID-font `next_char` reports between 1 and 4
consumed bytes, and the code it consumed — the one whose `findCID` lookup
produced the returned CharCode — is admitted by a codespace range of exactly
that width. -/
theorem cid_next_char_bytes (f : PdfCIDFont) (l : List Nat) (cc len : Nat)
    (rest : List Nat)
    (h : Font.next_char (Font.cid f) l = some (cc, len, rest)) :
    1 ≤ len ∧ len ≤ 4 ∧
      ∃ cd, findCID f.encoding.cid cd = some cc ∧
        ∃ r ∈ f.encoding.codespace, r.width = len ∧
          r.start ≤ cd ∧ cd ≤ r.stop := by
  cases l with
  | nil => exact absurd h (by simp [Font.next_char, PdfCIDFont.next_char])
  | cons b t =>
    simp only [Font.next_char, PdfCIDFont.next_char] at h
    cases h1 : scan1 f.encoding.codespace f.encoding.cid b with
    | some c2 =>
      simp only [h1, Option.some.injEq, Prod.mk.injEq] at h
      obtain ⟨hfc, r, hrm, hw, hlo, hhi⟩ :=
        scan1_some f.encoding.codespace f.encoding.cid b c2 h1
      obtain ⟨hc2, hl1, hrest⟩ := h
      subst hc2
      exact ⟨by omega, by omega, b, hfc, r, hrm, by omega, hlo, hhi⟩
    | none =>
      simp only [h1] at h
      obtain ⟨h2, h3, hex⟩ := cidMultiGo_some f.encoding.codespace
        f.encoding.cid 3 2 b t rest cc len (by omega) h
      exact ⟨by omega, by omega, hex⟩

/-- C2 (counterexample): for the CID font whose codespace admits every single
byte but whose CID range list is empty, the byte string [0x41] is well-formed
under the codespace, yet iterated `next_char` returns no step at all: the
string is not consumed and the `bytes_consumed` sum is 0, not 1. -/
theorem c2_next_char_consumption_cex :
    WellFormed c2_font.encoding.codespace [0x41] ∧
    runFont (Font.cid c2_font) [0x41] = ([], [0x41]) ∧
    ((runFont (Font.cid c2_font) [0x41]).1.map (fun p => p.2)).sum ≠
      ([0x41] : List Nat).length := by
  refine ⟨?_, by decide, by decide⟩
  have h := @WellFormed.cons c2_font.encoding.codespace
    { width := 1, start := 0, stop := 255 } [0x41] []
    (by decide) rfl (by decide) (by decide) (by decide) WellFormed.nil
  simpa using h

/-- C2 (amended): a SimpleFont's and a Type3Font's `next_char` always
consume exactly one byte, so iteration consumes all of B and the
`bytes_consumed` values sum to |B|; a CIDFont's successful `next_char`
reports between 1 and 4 consumed bytes, equal to the width of a codespace
range that admitted the code this call consumed — the code whose CID-range
lookup produced the returned CharCode.  (The claimed equivalence between
full consumption and codespace well-formedness does not hold: see the
counterexample.) -/
theorem c2_next_char_amended :
    (∀ (f : PdfSimpleFont) (l : List Nat),
      runFont (Font.simple f) l = (l.map (fun b => (b, 1)), []) ∧
      ((runFont (Font.simple f) l).1.map (fun p => p.2)).sum = l.length) ∧
    (∀ (f : PdfType3Font) (l : List Nat),
      runFont (Font.type3 f) l = (l.map (fun b => (b, 1)), []) ∧
      ((runFont (Font.type3 f) l).1.map (fun p => p.2)).sum = l.length) ∧
    (∀ (f : PdfCIDFont) (l : List Nat) (cc len : Nat) (rest : List Nat),
      Font.next_char (Font.cid f) l = some (cc, len, rest) →
      1 ≤ len ∧ len ≤ 4 ∧
        ∃ cd, findCID f.encoding.cid cd = some cc ∧
          ∃ r ∈ f.encoding.codespace, r.width = len ∧
            r.start ≤ cd ∧ cd ≤ r.stop) := by
  refine ⟨?_, ?_, ?_⟩
  · intro f l
    have h := runFontFuel_simple f (l.length + 1) l (by omega)
    constructor
    · simpa [runFont] using h
    · rw [runFont, h]
      simp only [List.map_map]
      exact sum_map_one l
  · intro f l
    have h := runFontFuel_type3 f (l.length + 1) l (by omega)
    constructor
    · simpa [runFont] using h
    · rw [runFont, h]
      simp only [List.map_map]
      exact sum_map_one l
  · exact fun f l cc len rest h => cid_next_char_bytes f l cc len rest h

/-- Closed instance of `c2_next_char_amended`: the simple font and a Type3
font consume [65, 66] as two 1-byte codes, and the identity CID font
consumes the 2-byte sequence 00 41 reporting `bytes_consumed` 2, with the
admitted code 0x41 mapping through the identity CID range to the returned
CharCode 65. -/
theorem c2_witness :
    runFont (Font.simple c1_font) [65, 66] = ([(65, 1), (66, 1)], []) ∧
    runFont (Font.type3 c2_t3_font) [65, 66] = ([(65, 1), (66, 1)], []) ∧
    (1 ≤ 2 ∧ 2 ≤ 4 ∧
      ∃ cd, findCID id_cid_font.encoding.cid cd = some 65 ∧
        ∃ r ∈ id_cid_font.encoding.codespace, r.width = 2 ∧
          r.start ≤ cd ∧ cd ≤ r.stop) := by
  refine ⟨?_, ?_, ?_⟩
  · have h := (c2_next_char_amended.1 c1_font [65, 66]).1
    simpa using h
  · have h := (c2_next_char_amended.2.1 c2_t3_font [65, 66]).1
    simpa using h
  · exact c2_next_char_amended.2.2 id_cid_font [0, 65] 65 2 [] rfl

/-- Auxiliary: a successful `Tf` arm leaves the graphics-state stack
untouched. -/
theorem tf_arm_stack (env : Env) (st : St) (na : String) (size : ℚ) (s2 : St)
    (h : tf_arm env st na size = .ok s2) : s2.gs_stack = st.gs_stack := by
  unfold tf_arm at h
  cases hfr : env.font_res with
  | none => simp only [hfr] at h; exact Except.noConfusion h
  | some tbl =>
    simp only [hfr] at h
    cases hc : st.font_cache.find? (fun p => p.1 = na) with
    | some pr =>
      simp only [hc] at h
      injection h with h
      subst h
      rfl
    | none =>
      simp only [hc] at h
      cases ht : tbl.find? (fun p => p.1 = na) with
      | none => simp only [ht] at h; exact Except.noConfusion h
      | some pr =>
        simp only [ht] at h
        obtain ⟨nm, fr⟩ := pr
        cases fr with
        | failed => exact Except.noConfusion h
        | built fb =>
          injection h with h
          subst h
          rfl

/-- Auxiliary: a successful `TJ` fold leaves the graphics-state stack
untouched. -/
theorem tj_fold_stack (elems : List TJElem) :
    ∀ (st s2 : St), tj_fold st elems = .ok s2 →
      s2.gs_stack = st.gs_stack := by
  induction elems with
  | nil =>
    intro st s2 h
    injection h with h
    subst h
    rfl
  | cons e rest ih =>
    intro st s2 h
    cases e with
    | str s =>
      simp only [tj_fold] at h
      cases hst : show_text st.gs s st.events with
      | error er => simp only [hst] at h; exact Except.noConfusion h
      | ok p =>
        obtain ⟨g, evs⟩ := p
        simp only [hst] at h
        have h2 := ih _ _ h
        exact h2
    | int i =>
      simp only [tj_fold] at h
      have h2 := ih _ _ h
      exact h2
    | real r =>
      simp only [tj_fold] at h
      have h2 := ih _ _ h
      exact h2
    | other =>
      simp only [tj_fold] at h
      have h2 := ih _ _ h
      exact h2

/-- Auxiliary: every operator other than `q` and `Q` leaves the
graphics-state stack untouched when it succeeds. -/
theorem step_stack (env : Env) (st : St) (op : Op) (s2 : St)
    (hq : op ≠ Op.q) (hQ : op ≠ Op.Q) (h : step env st op = .ok s2) :
    s2.gs_stack = st.gs_stack := by
  cases op
  case q => exact absurd rfl hq
  case Q => exact absurd rfl hQ
  case Tf na size => exact tf_arm_stack env st na size s2 h
  case TJ elems => exact tj_fold_stack elems st s2 h
  case Tj s =>
    simp only [step] at h
    cases hst : show_text st.gs s st.events with
    | error er => simp only [hst] at h; exact Except.noConfusion h
    | ok p =>
      obtain ⟨g, evs⟩ := p
      simp only [hst] at h
      injection h with h
      subst h
      rfl
  case v a b cc d =>
    simp only [step] at h
    cases hcp : st.path.current_point with
    | none => simp only [hcp] at h; exact Except.noConfusion h
    | some pr =>
      obtain ⟨x, yv⟩ := pr
      simp only [hcp] at h
      injection h with h
      subst h
      rfl
  all_goals
    simp only [step] at h
  all_goals
    injection h with h
  all_goals
    subst h
  all_goals
    rfl

/-- Auxiliary: running a concatenation is running the first part, then the
second from where it stopped. -/
theorem runOps_append (env : Env) (L1 L2 : List Op) :
    ∀ st : St, runOps env st (L1 ++ L2) =
      match runOps env st L1 with
      | .error e => .error e
      | .ok s2 => runOps env s2 L2 := by
  induction L1 with
  | nil => intro st; rfl
  | cons op rest ih =>
    intro st
    simp only [List.cons_append, runOps]
    cases hs : step env st op with
    | error e => rfl
    | ok s3 => exact ih s3

/-- Auxiliary: a balanced operator sequence restores the graphics-state
stack it started from. -/
theorem balanced_stack {L : List Op} (hb : Balanced L) :
    ∀ (env : Env) (st s2 : St), runOps env st L = .ok s2 →
      s2.gs_stack = st.gs_stack := by
  induction hb with
  | nil =>
    intro env st s2 h
    injection h with h
    subst h
    rfl
  | cons op L hq hQ hb ih =>
    intro env st s2 h
    simp only [runOps] at h
    cases hs : step env st op with
    | error e => simp only [hs] at h; exact Except.noConfusion h
    | ok s1 =>
      simp only [hs] at h
      rw [ih env s1 s2 h]
      exact step_stack env st op s1 hq hQ hs
  | wrap L1 L2 hb1 hb2 ih1 ih2 =>
    intro env st s2 h
    simp only [runOps, step] at h
    rw [runOps_append] at h
    cases h1 : runOps env { st with gs_stack := st.gs :: st.gs_stack } L1 with
    | error e => simp only [h1] at h; exact Except.noConfusion h
    | ok sm =>
      simp only [h1] at h
      have hsm : sm.gs_stack = st.gs :: st.gs_stack := ih1 env _ sm h1
      simp only [runOps, step, hsm] at h
      have h2 := ih2 env _ s2 h
      exact h2

/-- C8: after executing a balanced `q ... Q` pair, the graphics state (CTM,
text state including the shared font, colorspaces, colors, line width, soft
mask — the whole `GraphicsState`) equals the snapshot taken at the `q`, and
the stack is as before; a `Q` with no matching `q` on the stack leaves the
state unchanged and is not an error. -/
theorem c8_q_restore :
    (∀ (env : Env) (st : St) (L : List Op) (s2 : St), Balanced L →
      runOps env st (Op.q :: (L ++ [Op.Q])) = .ok s2 →
      s2.gs = st.gs ∧ s2.gs_stack = st.gs_stack) ∧
    (∀ (env : Env) (st : St), st.gs_stack = [] →
      step env st Op.Q = .ok st) := by
  constructor
  · intro env st L s2 hb h
    simp only [runOps, step] at h
    rw [runOps_append] at h
    cases h1 : runOps env { st with gs_stack := st.gs :: st.gs_stack } L with
    | error e => simp only [h1] at h; exact Except.noConfusion h
    | ok sm =>
      simp only [h1] at h
      have hsm : sm.gs_stack = st.gs :: st.gs_stack := balanced_stack hb env _ sm h1
      simp only [runOps, step, hsm] at h
      injection h with h
      subst h
      exact ⟨rfl, rfl⟩
  · intro env st h
    simp only [step, h]

/-- Closed instance of `c8_q_restore`: a `q / cm / Q` block from the initial
state ends exactly in the initial state, and `Q` on the empty stack is the
identity. -/
theorem c8_witness :
    (runOps env0 init_st (Op.q :: ([Op.cm 2 0 0 2 0 0] ++ [Op.Q])) =
        .ok init_st ∧
      init_st.gs = init_st.gs ∧ init_st.gs_stack = init_st.gs_stack) ∧
    step env0 init_st Op.Q = .ok init_st := by
  have hrun : runOps env0 init_st (Op.q :: ([Op.cm 2 0 0 2 0 0] ++ [Op.Q])) =
      .ok init_st := rfl
  have h := c8_q_restore.1 env0 init_st [Op.cm 2 0 0 2 0 0] init_st
    (Balanced.cons _ _ (by decide) (by decide) Balanced.nil) hrun
  exact ⟨⟨hrun, h.1, h.2⟩, c8_q_restore.2 env0 init_st rfl⟩

end PdfExtract
